import Mathlib

/-!
# Verification of the Auto-Research Agent backend

A shallow embedding, in Lean 4, of the job-orchestration core of the
Auto-Research Agent backend (Node.js): the data model (`memory.js`), the
hybrid LLM layer with its per-backend retry loops and the verify/synthesize
fallback router (`llm.js`), the Verifier agent's feedback normalization
(`agents.js`), the controller's Plan→Execute→Verify run loop
(`controller.js`) and the HTTP/SSE handlers (`server.js`).

External effects (LLM calls, tool calls, the wall clock) are modelled as
oracles supplied through an environment record; JavaScript objects used as
string-keyed maps are association lists with JavaScript's insert-or-update
semantics; JavaScript truthiness on the relevant values (nullable strings,
optional numeric scores, nullable objects) is made explicit.  The run loop
is modelled at the granularity of its `await` suspension points: every
mutation block between two suspensions is one atomic step, and the list of
job-state snapshots at suspension points is the set of states any other
task (an HTTP handler, an SSE attach) can observe.
-/

namespace AutoResearch

/-! ## Data model (`memory.js`) -/

/-- `Step` from `memory.js`: one unit of work inside a plan.  `params` is the
tool-specific parameter bag (a JS object, modelled as a string association
list), `result` is `null` until the step completes. -/
structure Step where
  step_id : String
  description : String
  tool : String
  params : List (String × String)
  dependencies : List String
  status : String
  result : Option String
  uncertainty_level : String
  deriving Repr, DecidableEq

/-- `Plan` from `memory.js`: a reasoning string plus an ordered list of steps. -/
structure Plan where
  reasoning : String
  steps : List Step
  deriving Repr, DecidableEq

/-- `LogEntry` from `memory.js`. -/
structure LogEntry where
  timestamp : String
  message : String
  level : String
  deriving Repr, DecidableEq

/-- `JobState` from `memory.js`: the per-job mutable record owned by the
controller. -/
structure JobState where
  job_id : String
  topic : String
  status : String
  plan : Option Plan
  logs : List LogEntry
  final_report : Option String
  created_at : String
  deriving Repr, DecidableEq

/-- The `JobState` constructor: a fresh job starts `queued`, with no plan, an
empty log and no final report. -/
def JobState.init (job_id topic created_at : String) : JobState :=
  { job_id := job_id
    topic := topic
    status := "queued"
    plan := none
    logs := []
    final_report := none
    created_at := created_at }

/-- Findings: the JS object mapping step id to result text, as an ordered
association list (JS objects preserve insertion order for string keys). -/
abbrev Findings := List (String × String)

/-- JavaScript `obj[k] = v` on a string-keyed object: update the value in
place if the key is present (keeping its position), otherwise append. -/
def jsAssign {α : Type} : List (String × α) → String → α → List (String × α)
  | [], k, v => [(k, v)]
  | (k', v') :: rest, k, v =>
      if k' = k then (k, v) :: rest else (k', v') :: jsAssign rest k v

/-- `findings[step.step_id] = result`. -/
def jsSet (f : Findings) (k v : String) : Findings := jsAssign f k v

/-! ## Inference backends (`llm.js`)

Each backend call is an oracle `Nat → Except JsError JsonObj` (resp. string):
iteration `i` of the retry loop either returns a value or throws a JS error
carrying an optional HTTP status and a message.  A thrown `JSON.parse`
failure is an error with no status.  The loop may also perform backoff
waits; we record the waits performed and whether the loop fell through to
the unreachable post-loop `return`. -/

/-- A thrown JavaScript error as the retry loops inspect it: an optional
numeric `status` field (set on HTTP errors) and a message. -/
structure JsError where
  status : Option Nat
  message : String
  deriving Repr, DecidableEq

/-- A parsed structured result as the router inspects it: a possible `error`
field plus the remaining payload, abstracted to a string. -/
structure JsonObj where
  error : Option String
  body : String
  deriving Repr, DecidableEq

/-- The `{ error: message }` object the backends return on failure. -/
def JsonObj.mkErr (message : String) : JsonObj :=
  { error := some message, body := "" }

/-- JavaScript truthiness of the `error` field: absent or the empty string is
falsy. -/
def JsonObj.errTruthy (o : JsonObj) : Bool :=
  match o.error with
  | none => false
  | some m => m ≠ ""

/-- The observable run of one backend generate call: the returned value, the
backoff waits performed (in ms, in order), the number of loop iterations
entered, and whether control fell out of the loop to the trailing
`return`. -/
structure GenRun (α : Type) where
  result : α
  waits : List Nat
  iters : Nat
  fellThrough : Bool
  deriving Repr, DecidableEq

/-- Is this thrown error rate-limit-class for Groq?  `error.status === 429`. -/
def groqIs429 (e : JsError) : Bool := e.status = some 429

/-- `String.prototype.startsWith`. -/
def strStartsWith (s pre : String) : Bool :=
  pre.toList.isPrefixOf s.toList

/-- `String.prototype.includes`: does `l` contain `pat` as a contiguous
run? -/
def charsContain (pat : List Char) : List Char → Bool
  | [] => pat.isPrefixOf []
  | c :: rest => pat.isPrefixOf (c :: rest) || charsContain pat rest

/-- Is this thrown error rate-limit-class for Gemini?
`error.message?.includes('429')`. -/
def geminiIs429 (e : JsError) : Bool :=
  charsContain "429".toList e.message.toList

/-- The shared retry loop of `generateJson`/`generateText`:
`for (let i = 0; i < retries; i++) { try ... catch (e) { if (is429 e && i <
retries - 1) { wait(base * 2^(i+1)); continue; } return mkErr e } } return
fellThrough`.  `base` is the backend's backoff base (ms).  The `for` loop is
encoded structurally on the fuel `retries - i`: exhausted fuel is exactly the
loop condition `i < retries` turning false, at which point control falls
through to the trailing `return`. -/
def retryLoop {α : Type} (is429 : JsError → Bool) (base : Nat)
    (mkErr : String → α) (fallThrough : α)
    (oracle : Nat → Except JsError α) (retries : Nat) :
    Nat → Nat → List Nat → GenRun α
  | 0, i, waits => ⟨fallThrough, waits, i, true⟩
  | fuel + 1, i, waits =>
      match oracle i with
      | .ok v => ⟨v, waits, i + 1, false⟩
      | .error e =>
          if is429 e ∧ i < retries - 1 then
            retryLoop is429 base mkErr fallThrough oracle retries fuel (i + 1)
              (waits ++ [2 ^ (i + 1) * base])
          else
            ⟨mkErr e.message, waits, i + 1, false⟩

/-- `GroqLLM.generateJson(prompt, retries = 3)`: backoff base 2000 ms, error
object `{ error: message }`, post-loop value `{ error: "Max retries
exceeded" }`. -/
def groqGenerateJson (oracle : Nat → Except JsError JsonObj)
    (retries : Nat := 3) : GenRun JsonObj :=
  retryLoop groqIs429 2000 JsonObj.mkErr (JsonObj.mkErr "Max retries exceeded")
    oracle retries retries 0 []

/-- `GroqLLM.generateText(prompt, retries = 3)`: backoff base 2000 ms, error
value `"Error: " + message`, post-loop value `"Error: Max retries
exceeded"`. -/
def groqGenerateText (oracle : Nat → Except JsError String)
    (retries : Nat := 3) : GenRun String :=
  retryLoop groqIs429 2000 (fun m => "Error: " ++ m) "Error: Max retries exceeded"
    oracle retries retries 0 []

/-- `GeminiLLM.generateJson(prompt, retries = 3)` when the backend is
configured: backoff base 3000 ms, rate-limit detection by message substring. -/
def geminiGenerateJsonAvail (oracle : Nat → Except JsError JsonObj)
    (retries : Nat := 3) : GenRun JsonObj :=
  retryLoop geminiIs429 3000 JsonObj.mkErr (JsonObj.mkErr "Max retries exceeded")
    oracle retries retries 0 []

/-- `GeminiLLM.generateJson` including the unconfigured guard:
`if (!this.available) return { error: "Gemini not configured" }`. -/
def geminiGenerateJson (available : Bool) (oracle : Nat → Except JsError JsonObj)
    (retries : Nat := 3) : GenRun JsonObj :=
  if available then geminiGenerateJsonAvail oracle retries
  else ⟨JsonObj.mkErr "Gemini not configured", [], 0, false⟩

/-! ## The hybrid router (`llm.js`, class `LLM`)

At this layer each backend's whole generate call (retry loop included) is an
oracle from the prompt to its returned value. -/

/-- The `LLM` router's configuration and per-backend behaviour: whether
Gemini is configured, and the value each backend's generate call returns for
a given prompt. -/
structure Router where
  geminiAvailable : Bool
  groqJson : String → JsonObj
  geminiJson : String → JsonObj
  groqText : String → String
  geminiText : String → String

/-- `LLM.verify(prompt)`: try Gemini if available; on a truthy `error` field
fall through to Groq; Groq's result is returned as-is (error or not). -/
def Router.verify (m : Router) (prompt : String) : JsonObj :=
  if m.geminiAvailable then
    let result := m.geminiJson prompt
    if result.errTruthy = false then result
    else m.groqJson prompt
  else m.groqJson prompt

/-- `LLM.synthesize(prompt)`: try Gemini if available; on a result starting
with `"Error:"` fall through to Groq; Groq's result is returned as-is. -/
def Router.synthesize (m : Router) (prompt : String) : String :=
  if m.geminiAvailable then
    let result := m.geminiText prompt
    if strStartsWith result "Error:" = false then result
    else m.groqText prompt
  else m.groqText prompt

/-! ## The Verifier agent's normalization (`agents.js`) -/

/-- The duck-typed verification object: possibly-absent `status`,
`quality_score`, `feedback` and `final_report` fields. -/
structure Verification where
  status : Option String
  quality_score : Option Nat
  feedback : Option String
  final_report : Option String
  deriving Repr, DecidableEq

/-- JavaScript falsiness of the `feedback` field: absent or empty. -/
def feedbackFalsy : Option String → Bool
  | none => true
  | some s => s = ""

/-- The generic feedback the Verifier synthesizes when a non-pass result
carries none. -/
def genericFeedback : String := "Research needs more specific data."

/-- `VerifierAgent.verify`'s normalization of the router result:
`if (result.status !== "pass" && !result.feedback) result.feedback = ...`. -/
def normalizeVerification (v : Verification) : Verification :=
  if v.status ≠ some "pass" ∧ feedbackFalsy v.feedback then
    { v with feedback := some genericFeedback }
  else v

/-! ## The controller run loop (`controller.js`)

`Controller.runJob` drives the Plan→Execute→Verify loop.  Its collaborators
are oracles in a `RunEnv`, indexed by the attempt number so that distinct
calls may answer differently:

* `planner a fb` is `PlannerAgent.createPlan(topic, fb)` on attempt `a`; a
  returned `{error}` from the underlying LLM makes the agent throw, which we
  model as `Except.error` (the only throw site in the loop — the executor,
  verifier and reporter layers convert their failures to values).
* `executor a step ctx` is `ExecutorAgent.executeStep(step, JSON.stringify(ctx))`
  — always a string, possibly an error-describing one.
* `verifierRaw a plan findings` is the duck-typed object
  `await this.llm.verify(prompt)` seen through its verification fields; the
  agent normalization `normalizeVerification` is then applied as in
  `VerifierAgent.verify`.
* `reporter topic findings` is `ReportGenerator.generate` — always a string.
* `now t` is the `t`-th `new Date().toISOString()`.

The run threads a `RunSt`: the job record, a clock tick, the list of
job-state snapshots at `await` suspension points (the observable states),
and a ghost history of the attempts performed.  `notifySubscribers` writes
to subscriber response streams and never touches the job record, so it has
no footprint here. -/

/-- `Controller.config`: retry ceiling and inter-step pause (ms). -/
structure Config where
  maxRetries : Nat
  delayBetweenSteps : Nat
  deriving Repr, DecidableEq

/-- The constructor defaults: `{ maxRetries: 2, delayBetweenSteps: 1000 }`. -/
def defaultConfig : Config := ⟨2, 1000⟩

/-- The oracles standing for the run loop's collaborators. -/
structure RunEnv where
  planner : Nat → Option String → Except String Plan
  executor : Nat → Step → Findings → String
  verifierRaw : Nat → Plan → Findings → Verification
  reporter : String → Findings → String
  now : Nat → String

/-- Ghost record of one completed Plan→Execute→Verify attempt. -/
structure AttemptRec where
  attempt : Nat
  feedback : Option String
  plan : Plan
  findings : Findings
  verification : Verification
  deriving Repr, DecidableEq

/-- The run-loop state: the job record, the clock tick, the observable
snapshots (states at `await` suspension points, oldest first) and the ghost
attempt history. -/
structure RunSt where
  job : JobState
  tick : Nat
  trace : List JobState
  history : List AttemptRec
  deriving Repr, DecidableEq

/-- Record the current job state as observable (control is at an `await`). -/
def snap (s : RunSt) : RunSt := { s with trace := s.trace ++ [s.job] }

/-- `Controller.log`: append a timestamped entry to the job's log.  (The
subscriber notification writes to response streams only.) -/
def addLog (env : RunEnv) (s : RunSt) (message level : String) : RunSt :=
  { s with
    job := { s.job with logs := s.job.logs ++ [⟨env.now s.tick, message, level⟩] }
    tick := s.tick + 1 }

/-- `await this.log(...)`: append the entry, then suspend (snapshot). -/
def logAwait (env : RunEnv) (s : RunSt) (message level : String) : RunSt :=
  snap (addLog env s message level)

/-- `job.status = st` (synchronous, no suspension). -/
def setStatus (s : RunSt) (st : String) : RunSt :=
  { s with job := { s.job with status := st } }

/-- JavaScript truthiness of `verification.quality_score`. -/
def qsTruthy : Option Nat → Bool
  | none => false
  | some n => n ≠ 0

/-- One abstract effect of the executing phase, for stating its contract:
a tool dispatch (with the findings context it received), a findings store,
or the inter-step pause. -/
inductive ExecAction where
  | dispatch (step_id : String) (context : Findings)
  | store (step_id : String) (result : String)
  | pause (ms : Nat)
  deriving Repr, DecidableEq

/-- The `for (const step of plan.steps)` loop of `runJob`, on attempt `a`:
mark the step active, log, dispatch its tool with the findings so far as
context, store the result on the step and under its id in findings, log,
pause.  `done` holds the already-processed steps so the job's plan field can
be kept current, as mutating the shared step objects does in the source.
Also returns the findings built and the ghost list of effects. -/
def execPhase (env : RunEnv) (cfg : Config) (a : Nat) (reasoning : String) :
    List Step → List Step → Findings → RunSt → RunSt × Findings × List ExecAction
  | _done, [], findings, s => (s, findings, [])
  | done, step :: rest, findings, s =>
      let step1 := { step with status := "active" }
      let s := { s with job := { s.job with plan := some ⟨reasoning, done ++ step1 :: rest⟩ } }
      let s := logAwait env s ("⚡ [Groq] " ++ step.description) "info"
      let s := snap s
      let result := env.executor a step1 findings
      let step2 := { step1 with result := some result, status := "completed" }
      let s := { s with job := { s.job with plan := some ⟨reasoning, done ++ step2 :: rest⟩ } }
      let findings1 := jsSet findings step.step_id result
      let s := logAwait env s ("✅ Done (" ++ toString result.length ++ " chars)") "info"
      let s := snap s
      let out := execPhase env cfg a reasoning (done ++ [step2]) rest findings1 s
      (out.1, out.2.1,
        ExecAction.dispatch step.step_id findings ::
        ExecAction.store step.step_id result ::
        ExecAction.pause cfg.delayBetweenSteps :: out.2.2)

/-- `Controller.runJob`'s `while (attempt < maxRetries)` loop plus the code
after it (fallback report or failure) and the `catch` block.  `remaining` is
the fuel `maxRetries - (attemptNo - 1)`; attempt numbers run `1, 2, ...`.
On fuel `0` the `while` condition is false and control reaches the post-loop
code: with a non-null `lastFindings` (any object, the empty one included)
the fallback report path runs — note it sets `status = "completed"` before
suspending on the reporter call — otherwise the job fails. -/
def runLoop (env : RunEnv) (cfg : Config) :
    Nat → Nat → Option String → Option Findings → RunSt → RunSt
  | 0, _attemptNo, _feedback, lastFindings, s =>
      match lastFindings with
      | some lf =>
          let s := logAwait env s "📝 Generating report [Gemini]..." "warning"
          let s := setStatus s "completed"
          let s := snap s
          let report := env.reporter s.job.topic lf
          let s := { s with job := { s.job with final_report := some report } }
          logAwait env s "✅ Report generated!" "info"
      | none =>
          let s := setStatus s "failed"
          logAwait env s "❌ Research failed." "error"
  | remaining + 1, attemptNo, feedback, _lastFindings, s =>
      let a := attemptNo
      let s := logAwait env s
        ("🔄 Attempt " ++ toString a ++ "/" ++ toString cfg.maxRetries) "info"
      let s := setStatus s "planning"
      let s := logAwait env s "📋 Planning [Groq]..." "info"
      let s := snap s
      match env.planner a feedback with
      | .error msg =>
          let s := setStatus s "failed"
          logAwait env s ("💥 Error: " ++ msg) "error"
      | .ok plan =>
          let s := { s with job := { s.job with plan := some plan } }
          let s := logAwait env s
            ("📋 " ++ toString plan.steps.length ++ " steps planned") "info"
          let s := setStatus s "executing"
          let out := execPhase env cfg a plan.reasoning [] plan.steps [] s
          let s := out.1
          let findings := out.2.1
          let s := setStatus s "verifying"
          let s := logAwait env s "━━━━━━━━━━━━━━━━━━━━━━━━━━━━" "info"
          let s := logAwait env s "🔮 [Gemini] Starting verification..." "info"
          let s := logAwait env s "🔬 [Gemini] Analyzing research quality..." "info"
          let s := snap s
          let s := logAwait env s "📋 [Gemini] Cross-referencing findings..." "info"
          let s := snap s
          let s := logAwait env s "✍️ [Gemini] Generating comprehensive report..." "info"
          let s := snap s
          let v := normalizeVerification (env.verifierRaw a plan findings)
          let s := logAwait env s "✅ [Gemini] Verification complete!" "info"
          let s := if qsTruthy v.quality_score then
              logAwait env s
                ("📊 Quality Score: " ++ toString (v.quality_score.getD 0) ++ "/100") "info"
            else s
          let s := { s with history := s.history ++ [⟨a, feedback, plan, findings, v⟩] }
          if v.status = some "pass" then
            let s := { s with job :=
              { s.job with status := "completed", final_report := v.final_report } }
            logAwait env s "🎉 Research completed!" "info"
          else
            let s := logAwait env s ("⚠️ " ++ v.feedback.getD "undefined") "warning"
            runLoop env cfg remaining (attemptNo + 1) v.feedback (some findings) s

/-- `Controller.runJob` from the top: attempt counter at 0, no feedback, null
`lastFindings`, empty trace and history. -/
def runJob (env : RunEnv) (cfg : Config) (job : JobState) : RunSt :=
  runLoop env cfg cfg.maxRetries 1 none none
    { job := job, tick := 0, trace := [], history := [] }

/-! ## Controller registry and HTTP/SSE handlers (`controller.js`, `server.js`) -/

/-- The controller's registries: `this.jobs` and `this.eventSubscribers`
(the latter holding opaque subscriber handles). -/
structure ControllerState where
  jobs : List (String × JobState)
  eventSubscribers : List (String × List Nat)
  deriving Repr, DecidableEq

/-- `Controller.getJob`. -/
def ControllerState.getJob (c : ControllerState) (jobId : String) : Option JobState :=
  c.jobs.lookup jobId

/-- `Controller.createJob(topic)`: make a fresh `JobState`, register it and an
empty subscriber list, start `runJob` in the background (modelled separately
by `runJob` over the stored state), return the id. -/
def createJob (c : ControllerState) (freshId topic ts : String) :
    String × ControllerState :=
  let job := JobState.init freshId topic ts
  (freshId,
    { jobs := jsAssign c.jobs freshId job
      eventSubscribers := jsAssign c.eventSubscribers freshId [] })

/-- The response of `POST /api/v1/jobs`. -/
inductive PostJobsResult where
  | badRequest (error : String)
  | created (job_id : String) (status : String)
  deriving Repr, DecidableEq

/-- `POST /api/v1/jobs`: `if (!topic) return 400`; otherwise create the job
and answer with its id.  A missing or empty `topic` is falsy. -/
def postJobs (c : ControllerState) (freshId ts : String) (topic : Option String) :
    PostJobsResult × ControllerState :=
  match topic with
  | none => (.badRequest "Topic is required", c)
  | some t =>
      if t = "" then (.badRequest "Topic is required", c)
      else
        let r := createJob c freshId t ts
        (.created r.1 "queued", r.2)

/-- The response of `GET /api/v1/jobs/:jobId`. -/
inductive GetJobResult where
  | notFound (error : String)
  | ok (job_id status : String) (plan : Option Plan) (logs : List LogEntry)
      (final_report : Option String)
  deriving Repr, DecidableEq

/-- `GET /api/v1/jobs/:jobId`. -/
def getJobRoute (c : ControllerState) (jobId : String) : GetJobResult :=
  match c.getJob jobId with
  | none => .notFound "Job not found"
  | some job => .ok job.job_id job.status job.plan job.logs job.final_report

/-- An event written on an SSE stream. -/
inductive SseEvent where
  | log (entry : LogEntry)
  | result (report : String)
  deriving Repr, DecidableEq

/-- What the SSE handler does to a stream on attach, in order. -/
inductive SseAction where
  | write (e : SseEvent)
  | subscribe
  deriving Repr, DecidableEq

/-- The attach behaviour of `GET /api/v1/jobs/:jobId/events` for an existing
job: replay every log entry in order, then — when the job is `completed` and
`job.final_report` is truthy — write the result event, then register the
subscriber for live events. -/
def sseAttach (job : JobState) : List SseAction :=
  let replay := job.logs.map fun l => SseAction.write (.log l)
  let resultWrite : List SseAction :=
    match job.final_report with
    | some r => if job.status = "completed" ∧ r ≠ "" then [.write (.result r)] else []
    | none => []
  replay ++ resultWrite ++ [SseAction.subscribe]

/-- The response of `GET /api/v1/jobs/:jobId/events`. -/
inductive SseRouteResult where
  | notFound (error : String)
  | stream (actions : List SseAction)
  deriving Repr, DecidableEq

/-- The SSE route: 404 for an unknown id, otherwise the attach behaviour. -/
def sseRoute (c : ControllerState) (jobId : String) : SseRouteResult :=
  match c.getJob jobId with
  | none => .notFound "Job not found"
  | some job => .stream (sseAttach job)

/-! ## Characterization of the executing phase

The claim-shaped description of sequential execution: step after step in
plan order, each tool dispatched with exactly the findings accumulated from
the earlier steps, the returned string stored verbatim under the step's id,
a fixed pause after each step. -/

/-- The findings accumulated by running `steps` sequentially from `f` on
attempt `a`: each step's executor output, stored under its id, feeds the
next step's context. -/
def execFindingsSpec (env : RunEnv) (a : Nat) : List Step → Findings → Findings
  | [], f => f
  | step :: rest, f =>
      execFindingsSpec env a rest
        (jsSet f step.step_id (env.executor a { step with status := "active" } f))

/-- The effect stream of running `steps` sequentially from `f` on attempt
`a`: for each step in plan order, a dispatch carrying the findings built so
far, a verbatim store of the executor's output, and the fixed pause. -/
def execActionsSpec (env : RunEnv) (cfg : Config) (a : Nat) :
    List Step → Findings → List ExecAction
  | [], _ => []
  | step :: rest, f =>
      let res := env.executor a { step with status := "active" } f
      ExecAction.dispatch step.step_id f ::
      ExecAction.store step.step_id res ::
      ExecAction.pause cfg.delayBetweenSteps ::
      execActionsSpec env cfg a rest (jsSet f step.step_id res)

/-! ## Concrete sample inputs (used to instantiate the theorems) -/

/-- A sample log entry. -/
def sampleLog : LogEntry := ⟨"2024-01-01T00:00:00Z", "started", "info"⟩

/-- A sample already-completed job with one log entry and a report. -/
def sampleCompletedJob : JobState :=
  { job_id := "j1", topic := "ev batteries", status := "completed",
    plan := none, logs := [sampleLog], final_report := some "the report",
    created_at := "2024-01-01T00:00:00Z" }

/-- A registry holding the sample completed job. -/
def sampleController : ControllerState :=
  ⟨[("j1", sampleCompletedJob)], [("j1", [])]⟩

/-- A router with no Gemini credentials. -/
def sampleRouterNoGemini : Router :=
  ⟨false, fun _ => ⟨none, "groq json"⟩, fun _ => ⟨some "unreachable", ""⟩,
    fun _ => "groq text", fun _ => "unreachable"⟩

/-- A router whose Gemini backend errors on every call. -/
def sampleRouterDown : Router :=
  ⟨true, fun _ => ⟨none, "groq json"⟩, fun _ => ⟨some "quota exceeded", ""⟩,
    fun _ => "groq text", fun _ => "Error: quota exceeded"⟩

/-- A router where both backends error. -/
def sampleRouterBothDown : Router :=
  ⟨true, fun _ => ⟨some "groq down", ""⟩, fun _ => ⟨some "quota exceeded", ""⟩,
    fun _ => "Error: groq down", fun _ => "Error: quota exceeded"⟩

/-- A backend-call oracle that is rate-limited on every iteration. -/
def rlOracle : Nat → Except JsError JsonObj :=
  fun _ => .error ⟨some 429, "rate limited"⟩

/-- A backend-call oracle that fails permanently (HTTP 500) on every
iteration. -/
def permOracle : Nat → Except JsError JsonObj :=
  fun _ => .error ⟨some 500, "boom"⟩

/-- A text-generation oracle that throws a parse-like error (no HTTP status)
on every iteration. -/
def parseFailOracle : Nat → Except JsError String :=
  fun _ => .error ⟨none, "Unexpected token"⟩

/-- The report/status half-invariant: a job state either has no final report
yet, or has reached `"completed"` — i.e. `final_report ≠ null` implies
status `"completed"`. -/
def ReportInv (x : JobState) : Prop :=
  x.final_report = none ∨ x.status = "completed"

/-- `ReportInv` lifted to a run state: it holds of the current job and of
every observable snapshot. -/
def StInv (s : RunSt) : Prop :=
  ReportInv s.job ∧ ∀ x ∈ s.trace, ReportInv x

/-- The strong in-loop invariant: no report yet, and every snapshot so far
satisfies `ReportInv`. -/
def QInv (s : RunSt) : Prop :=
  s.job.final_report = none ∧ StInv s

/-- A sample one-step plan body. -/
def sampleStep : Step :=
  ⟨"step_1", "search for sources", "web_search", [("query", "ev recycling")],
    [], "pending", none, "low"⟩

/-- A second sample step, depending on the first. -/
def sampleStep2 : Step :=
  ⟨"step_2", "analyze sources", "analyze_content", [], ["step_1"],
    "pending", none, "low"⟩

/-- A run environment whose planner always succeeds with a one-step plan and
whose verifier never passes. -/
def envAllFail : RunEnv :=
  { planner := fun _ _ => .ok ⟨"gather then analyze", [sampleStep]⟩
    executor := fun _ _ _ => "tool output"
    verifierRaw := fun _ _ _ => ⟨some "fail", some 40, some "needs more data", none⟩
    reporter := fun t _ => "fallback report for " ++ t
    now := fun t => toString t }

/-- A run environment whose planner always succeeds with a zero-step plan
(so the findings object stays empty) and whose verifier never passes. -/
def envEmptyPlans : RunEnv :=
  { planner := fun _ _ => .ok ⟨"nothing to do", []⟩
    executor := fun _ _ _ => "unused"
    verifierRaw := fun _ _ _ => ⟨some "fail", none, none, none⟩
    reporter := fun t _ => "empty report for " ++ t
    now := fun t => toString t }

/-! ## Basic lemmas -/

@[simp] theorem snap_job (s : RunSt) : (snap s).job = s.job := rfl

@[simp] theorem snap_history (s : RunSt) : (snap s).history = s.history := rfl

@[simp] theorem addLog_status (env : RunEnv) (s : RunSt) (m l : String) :
    (addLog env s m l).job.status = s.job.status := rfl

@[simp] theorem addLog_topic (env : RunEnv) (s : RunSt) (m l : String) :
    (addLog env s m l).job.topic = s.job.topic := rfl

@[simp] theorem addLog_report (env : RunEnv) (s : RunSt) (m l : String) :
    (addLog env s m l).job.final_report = s.job.final_report := rfl

@[simp] theorem addLog_history (env : RunEnv) (s : RunSt) (m l : String) :
    (addLog env s m l).history = s.history := rfl

@[simp] theorem addLog_trace (env : RunEnv) (s : RunSt) (m l : String) :
    (addLog env s m l).trace = s.trace := rfl

@[simp] theorem logAwait_status (env : RunEnv) (s : RunSt) (m l : String) :
    (logAwait env s m l).job.status = s.job.status := rfl

@[simp] theorem logAwait_topic (env : RunEnv) (s : RunSt) (m l : String) :
    (logAwait env s m l).job.topic = s.job.topic := rfl

@[simp] theorem logAwait_report (env : RunEnv) (s : RunSt) (m l : String) :
    (logAwait env s m l).job.final_report = s.job.final_report := rfl

@[simp] theorem logAwait_history (env : RunEnv) (s : RunSt) (m l : String) :
    (logAwait env s m l).history = s.history := rfl

@[simp] theorem setStatus_topic (s : RunSt) (st : String) :
    (setStatus s st).job.topic = s.job.topic := rfl

@[simp] theorem setStatus_report (s : RunSt) (st : String) :
    (setStatus s st).job.final_report = s.job.final_report := rfl

@[simp] theorem setStatus_history (s : RunSt) (st : String) :
    (setStatus s st).history = s.history := rfl

@[simp] theorem setStatus_trace (s : RunSt) (st : String) :
    (setStatus s st).trace = s.trace := rfl

/-- `normalizeVerification` never changes the `status` field. -/
theorem normalize_status (v : Verification) :
    (normalizeVerification v).status = v.status := by
  unfold normalizeVerification
  split <;> rfl

/-- `jsAssign` writes the given key. -/
theorem lookup_jsAssign_self {α : Type} (l : List (String × α)) (k : String) (v : α) :
    (jsAssign l k v).lookup k = some v := by
  induction l with
  | nil => simp [jsAssign, List.lookup]
  | cons kv rest ih =>
      obtain ⟨k', v'⟩ := kv
      by_cases h : k' = k
      · simp [jsAssign, h, List.lookup]
      · have hne : (k == k') = false := beq_false_of_ne fun h' => h h'.symm
        simp [jsAssign, h, List.lookup, hne, ih]

/-- `jsAssign` leaves other keys alone. -/
theorem lookup_jsAssign_ne {α : Type} (l : List (String × α)) (k k' : String) (v : α)
    (h : k' ≠ k) : (jsAssign l k v).lookup k' = l.lookup k' := by
  have hne : (k' == k) = false := beq_false_of_ne h
  induction l with
  | nil => simp [jsAssign, List.lookup, hne]
  | cons kv rest ih =>
      obtain ⟨k₀, v₀⟩ := kv
      by_cases h0 : k₀ = k
      · subst h0
        simp [jsAssign, List.lookup, hne]
      · cases hk : (k' == k₀) <;>
          simp [jsAssign, h0, List.lookup, hk, ih]

/-- `jsAssign` never shrinks the object. -/
theorem length_le_jsAssign {α : Type} (l : List (String × α)) (k : String) (v : α) :
    l.length ≤ (jsAssign l k v).length := by
  induction l with
  | nil => simp [jsAssign]
  | cons kv rest ih =>
      obtain ⟨k', v'⟩ := kv
      by_cases h : k' = k <;> simp [jsAssign, h, ih]

/-! ## Execution-phase lemmas -/

/-- The run-state component of the exec loop never touches the job's status. -/
@[simp] theorem execPhase_status (env : RunEnv) (cfg : Config) (a : Nat) (r : String) :
    ∀ (todo done : List Step) (f : Findings) (s : RunSt),
      (execPhase env cfg a r done todo f s).1.job.status = s.job.status := by
  intro todo
  induction todo with
  | nil => intro done f s; rfl
  | cons step rest ih =>
      intro done f s
      simp only [execPhase]
      rw [ih]
      simp [logAwait, addLog, snap]

/-- The exec loop never touches the job's topic. -/
@[simp] theorem execPhase_topic (env : RunEnv) (cfg : Config) (a : Nat) (r : String) :
    ∀ (todo done : List Step) (f : Findings) (s : RunSt),
      (execPhase env cfg a r done todo f s).1.job.topic = s.job.topic := by
  intro todo
  induction todo with
  | nil => intro done f s; rfl
  | cons step rest ih =>
      intro done f s
      simp only [execPhase]
      rw [ih]
      simp [logAwait, addLog, snap]

/-- The exec loop never touches the job's final report. -/
@[simp] theorem execPhase_report (env : RunEnv) (cfg : Config) (a : Nat) (r : String) :
    ∀ (todo done : List Step) (f : Findings) (s : RunSt),
      (execPhase env cfg a r done todo f s).1.job.final_report = s.job.final_report := by
  intro todo
  induction todo with
  | nil => intro done f s; rfl
  | cons step rest ih =>
      intro done f s
      simp only [execPhase]
      rw [ih]
      simp [logAwait, addLog, snap]

/-- The exec loop never touches the ghost history. -/
@[simp] theorem execPhase_history (env : RunEnv) (cfg : Config) (a : Nat) (r : String) :
    ∀ (todo done : List Step) (f : Findings) (s : RunSt),
      (execPhase env cfg a r done todo f s).1.history = s.history := by
  intro todo
  induction todo with
  | nil => intro done f s; rfl
  | cons step rest ih =>
      intro done f s
      simp only [execPhase]
      rw [ih]
      simp [logAwait, addLog, snap]

/-- The exec loop's effect stream is exactly the claim-shaped sequential
stream. -/
theorem execPhase_actions (env : RunEnv) (cfg : Config) (a : Nat) (r : String) :
    ∀ (todo done : List Step) (f : Findings) (s : RunSt),
      (execPhase env cfg a r done todo f s).2.2 = execActionsSpec env cfg a todo f := by
  intro todo
  induction todo with
  | nil => intro done f s; rfl
  | cons step rest ih =>
      intro done f s
      simp only [execPhase, execActionsSpec]
      rw [ih]

/-- The exec loop's findings are exactly the claim-shaped sequential fold. -/
theorem execPhase_findings_eq (env : RunEnv) (cfg : Config) (a : Nat) (r : String) :
    ∀ (todo done : List Step) (f : Findings) (s : RunSt),
      (execPhase env cfg a r done todo f s).2.1 = execFindingsSpec env a todo f := by
  intro todo
  induction todo with
  | nil => intro done f s; rfl
  | cons step rest ih =>
      intro done f s
      simp only [execPhase, execFindingsSpec]
      rw [ih]

/-- `jsAssign` never produces the empty object. -/
theorem jsAssign_ne_nil {α : Type} (l : List (String × α)) (k : String) (v : α) :
    jsAssign l k v ≠ [] := by
  cases l with
  | nil => simp [jsAssign]
  | cons kv rest =>
      obtain ⟨k', v'⟩ := kv
      by_cases h : k' = k <;> simp [jsAssign, h]

/-- The sequential fold never shrinks the findings object. -/
theorem length_le_execFindingsSpec (env : RunEnv) (a : Nat) :
    ∀ (steps : List Step) (f : Findings),
      f.length ≤ (execFindingsSpec env a steps f).length := by
  intro steps
  induction steps with
  | nil => intro f; simp [execFindingsSpec]
  | cons st rest ih =>
      intro f
      calc f.length
          ≤ (jsSet f st.step_id
              (env.executor a { st with status := "active" } f)).length :=
            length_le_jsAssign f _ _
        _ ≤ _ := ih _

/-- A plan with at least one step yields a non-empty findings object. -/
theorem execFindingsSpec_cons_ne_nil (env : RunEnv) (a : Nat) (st : Step)
    (rest : List Step) (f : Findings) :
    execFindingsSpec env a (st :: rest) f ≠ [] := by
  simp only [execFindingsSpec]
  intro hcon
  have h2 := length_le_execFindingsSpec env a rest
    (jsSet f st.step_id (env.executor a { st with status := "active" } f))
  rw [hcon] at h2
  simp [List.length_eq_zero] at h2
  exact jsAssign_ne_nil f st.step_id _ h2

/-- Index arithmetic for the three-actions-per-step stream. -/
theorem get3_cons (l : List ExecAction) (x y z : ExecAction) (i : Nat) :
    (x :: y :: z :: l).get? (3 * (i + 1)) = l.get? (3 * i)
    ∧ (x :: y :: z :: l).get? (3 * (i + 1) + 1) = l.get? (3 * i + 1)
    ∧ (x :: y :: z :: l).get? (3 * (i + 1) + 2) = l.get? (3 * i + 2) := by
  have e1 : 3 * (i + 1) = 3 * i + 1 + 1 + 1 := by ring
  have e2 : 3 * (i + 1) + 1 = (3 * i + 1) + 1 + 1 + 1 := by ring
  have e3 : 3 * (i + 1) + 2 = (3 * i + 2) + 1 + 1 + 1 := by ring
  rw [e2, e3, e1]
  simp

/-- Position `i` of the effect stream: the three effects of step `i`, with
the dispatch context being exactly the findings folded from the first `i`
steps — step `i`'s tool runs only after every earlier step's result was
stored. -/
theorem execActionsSpec_get (env : RunEnv) (cfg : Config) (a : Nat) :
    ∀ (steps : List Step) (f : Findings) (i : Nat) (h : i < steps.length),
      (execActionsSpec env cfg a steps f).get? (3 * i)
        = some (.dispatch (steps.get ⟨i, h⟩).step_id
            (execFindingsSpec env a (steps.take i) f))
      ∧ (execActionsSpec env cfg a steps f).get? (3 * i + 1)
        = some (.store (steps.get ⟨i, h⟩).step_id
            (env.executor a { steps.get ⟨i, h⟩ with status := "active" }
              (execFindingsSpec env a (steps.take i) f)))
      ∧ (execActionsSpec env cfg a steps f).get? (3 * i + 2)
        = some (.pause cfg.delayBetweenSteps) := by
  intro steps
  induction steps with
  | nil => intro f i h; simp at h
  | cons st rest ih =>
      intro f i h
      cases i with
      | zero =>
          refine ⟨?_, ?_, ?_⟩ <;> simp [execActionsSpec, execFindingsSpec]
      | succ i' =>
          have h' : i' < rest.length := by simpa using h
          obtain ⟨g1, g2, g3⟩ := ih
            (jsSet f st.step_id (env.executor a { st with status := "active" } f)) i' h'
          obtain ⟨e1, e2, e3⟩ := get3_cons
            (execActionsSpec env cfg a rest
              (jsSet f st.step_id (env.executor a { st with status := "active" } f)))
            (.dispatch st.step_id f)
            (.store st.step_id (env.executor a { st with status := "active" } f))
            (.pause cfg.delayBetweenSteps) i'
          refine ⟨?_, ?_, ?_⟩
          · rw [show execActionsSpec env cfg a (st :: rest) f
                = .dispatch st.step_id f
                  :: .store st.step_id (env.executor a { st with status := "active" } f)
                  :: .pause cfg.delayBetweenSteps
                  :: execActionsSpec env cfg a rest
                      (jsSet f st.step_id
                        (env.executor a { st with status := "active" } f))
              from rfl, e1, g1]
            simp [execFindingsSpec]
          · rw [show execActionsSpec env cfg a (st :: rest) f
                = .dispatch st.step_id f
                  :: .store st.step_id (env.executor a { st with status := "active" } f)
                  :: .pause cfg.delayBetweenSteps
                  :: execActionsSpec env cfg a rest
                      (jsSet f st.step_id
                        (env.executor a { st with status := "active" } f))
              from rfl, e2, g2]
            simp [execFindingsSpec]
          · rw [show execActionsSpec env cfg a (st :: rest) f
                = .dispatch st.step_id f
                  :: .store st.step_id (env.executor a { st with status := "active" } f)
                  :: .pause cfg.delayBetweenSteps
                  :: execActionsSpec env cfg a rest
                      (jsSet f st.step_id
                        (env.executor a { st with status := "active" } f))
              from rfl, e3, g3]

/-- Steps whose ids do not occur leave a key's binding untouched. -/
theorem execFindingsSpec_lookup_frozen (env : RunEnv) (a : Nat) :
    ∀ (steps : List Step) (f : Findings) (k : String),
      (∀ st ∈ steps, st.step_id ≠ k) →
      (execFindingsSpec env a steps f).lookup k = f.lookup k := by
  intro steps
  induction steps with
  | nil => intro f k _; rfl
  | cons st rest ih =>
      intro f k h
      simp only [execFindingsSpec]
      rw [ih _ _ (fun x hx => h x (List.mem_cons_of_mem st hx))]
      exact lookup_jsAssign_ne f st.step_id k _
        (Ne.symm (h st (List.mem_cons_self st rest)))

/-- With pairwise-distinct step ids, the finished findings hold, under step
`i`'s id, exactly the executor output computed from the findings of the
first `i` steps. -/
theorem execFindingsSpec_lookup (env : RunEnv) (a : Nat) :
    ∀ (steps : List Step) (f : Findings) (i : Nat) (h : i < steps.length),
      (steps.map Step.step_id).Nodup →
      (execFindingsSpec env a steps f).lookup (steps.get ⟨i, h⟩).step_id
        = some (env.executor a { steps.get ⟨i, h⟩ with status := "active" }
            (execFindingsSpec env a (steps.take i) f)) := by
  intro steps
  induction steps with
  | nil => intro f i h; simp at h
  | cons st rest ih =>
      intro f i h hnodup
      simp only [List.map_cons, List.nodup_cons] at hnodup
      cases i with
      | zero =>
          simp only [execFindingsSpec, List.get, List.take]
          rw [execFindingsSpec_lookup_frozen env a rest _ _
            (fun x hx hk =>
              hnodup.1 (by rw [← hk]; exact List.mem_map_of_mem Step.step_id hx))]
          exact lookup_jsAssign_self f st.step_id _
      | succ i' =>
          have h' : i' < rest.length := by simpa using h
          simp only [execFindingsSpec, List.get, List.take]
          exact ih _ i' h' hnodup.2

/-! ## Report-invariant helpers -/

theorem StInv_snap (s : RunSt) (h : StInv s) : StInv (snap s) := by
  obtain ⟨h1, h2⟩ := h
  refine ⟨h1, ?_⟩
  intro x hx
  simp only [snap, List.mem_append, List.mem_singleton] at hx
  rcases hx with hx | rfl
  · exact h2 x hx
  · exact h1

theorem StInv_addLog (env : RunEnv) (s : RunSt) (m l : String) (h : StInv s) :
    StInv (addLog env s m l) := by
  obtain ⟨h1, h2⟩ := h
  exact ⟨by simpa [ReportInv, addLog] using h1, by simpa [addLog] using h2⟩

theorem StInv_logAwait (env : RunEnv) (s : RunSt) (m l : String) (h : StInv s) :
    StInv (logAwait env s m l) :=
  StInv_snap _ (StInv_addLog env s m l h)

theorem StInv_setPlan (s : RunSt) (p : Option Plan) (h : StInv s) :
    StInv { s with job := { s.job with plan := p } } :=
  ⟨by simpa [ReportInv] using h.1, h.2⟩

theorem StInv_setHistory (s : RunSt) (hist : List AttemptRec) (h : StInv s) :
    StInv { s with history := hist } :=
  ⟨h.1, h.2⟩

theorem StInv_setStatus (s : RunSt) (st : String)
    (hrep : s.job.final_report = none) (h : StInv s) : StInv (setStatus s st) :=
  ⟨Or.inl (by simpa [setStatus] using hrep), h.2⟩

theorem StInv_setReport_completed (s : RunSt) (rep : Option String)
    (hst : s.job.status = "completed") (h : StInv s) :
    StInv { s with job := { s.job with final_report := rep } } :=
  ⟨Or.inr (by simpa using hst), h.2⟩

/-- The pass-path completion block: status and report set in one synchronous
step. -/
theorem StInv_completeWith (s : RunSt) (rep : Option String)
    (h : ∀ x ∈ s.trace, ReportInv x) :
    StInv { s with job :=
      { s.job with status := "completed", final_report := rep } } :=
  ⟨Or.inr rfl, h⟩

theorem StInv_ite_logAwait (c : Prop) [Decidable c] (env : RunEnv) (s : RunSt)
    (m l : String) (h : StInv s) :
    StInv (if c then logAwait env s m l else s) := by
  split
  · exact StInv_logAwait env s m l h
  · exact h

@[simp] theorem setStatus_status (s : RunSt) (st : String) :
    (setStatus s st).job.status = st := rfl

@[simp] theorem ite_logAwait_history (c : Prop) [Decidable c] (env : RunEnv)
    (s : RunSt) (m l : String) :
    (if c then logAwait env s m l else s).history = s.history := by
  split <;> simp

@[simp] theorem ite_logAwait_topic (c : Prop) [Decidable c] (env : RunEnv)
    (s : RunSt) (m l : String) :
    (if c then logAwait env s m l else s).job.topic = s.job.topic := by
  split <;> simp

@[simp] theorem ite_logAwait_report (c : Prop) [Decidable c] (env : RunEnv)
    (s : RunSt) (m l : String) :
    (if c then logAwait env s m l else s).job.final_report = s.job.final_report := by
  split <;> simp

@[simp] theorem ite_logAwait_status (c : Prop) [Decidable c] (env : RunEnv)
    (s : RunSt) (m l : String) :
    (if c then logAwait env s m l else s).job.status = s.job.status := by
  split <;> simp

/-- The exec loop preserves the report invariant. -/
theorem execPhase_stinv (env : RunEnv) (cfg : Config) (a : Nat) (r : String) :
    ∀ (todo done : List Step) (f : Findings) (s : RunSt),
      StInv s → StInv (execPhase env cfg a r done todo f s).1 := by
  intro todo
  induction todo with
  | nil => intro done f s hs; exact hs
  | cons step rest ih =>
      intro done f s hs
      simp only [execPhase]
      exact ih _ _ _
        (StInv_snap _ (StInv_logAwait _ _ _ _ (StInv_setPlan _ _
          (StInv_snap _ (StInv_logAwait _ _ _ _ (StInv_setPlan _ _ hs))))))

/-! ## Run-loop lemmas -/

/-- The post-loop fallback with a non-null `lastFindings` (empty or not):
the job completes with the reporter's output on those findings. -/
theorem runLoop_zero_some (env : RunEnv) (cfg : Config) (attemptNo : Nat)
    (fb : Option String) (F : Findings) (s : RunSt) :
    (runLoop env cfg 0 attemptNo fb (some F) s).job.status = "completed"
    ∧ (runLoop env cfg 0 attemptNo fb (some F) s).job.final_report
        = some (env.reporter s.job.topic F)
    ∧ (runLoop env cfg 0 attemptNo fb (some F) s).history = s.history
    ∧ (runLoop env cfg 0 attemptNo fb (some F) s).job.topic = s.job.topic := by
  refine ⟨?_, ?_, ?_, ?_⟩ <;>
    simp [runLoop, logAwait, addLog, snap, setStatus]

/-- The post-loop code with a null `lastFindings`: the job fails. -/
theorem runLoop_zero_none (env : RunEnv) (cfg : Config) (attemptNo : Nat)
    (fb : Option String) (s : RunSt) :
    (runLoop env cfg 0 attemptNo fb none s).job.status = "failed"
    ∧ (runLoop env cfg 0 attemptNo fb none s).job.final_report = s.job.final_report
    ∧ (runLoop env cfg 0 attemptNo fb none s).history = s.history := by
  refine ⟨?_, ?_, ?_⟩ <;>
    simp [runLoop, logAwait, addLog, snap, setStatus]

/-- Unfolding one non-passing attempt: a successful plan whose verification
does not pass makes the loop record the attempt and recurse, carrying the
verification's feedback and the attempt's findings as `lastFindings`. -/
theorem runLoop_succ_nopass (env : RunEnv) (cfg : Config) (r attemptNo : Nat)
    (fb : Option String) (lastF : Option Findings) (s : RunSt) (plan : Plan)
    (hplan : env.planner attemptNo fb = .ok plan)
    (hnp : (env.verifierRaw attemptNo plan
        (execFindingsSpec env attemptNo plan.steps [])).status ≠ some "pass") :
    ∃ s', runLoop env cfg (r + 1) attemptNo fb lastF s
        = runLoop env cfg r (attemptNo + 1)
            (normalizeVerification (env.verifierRaw attemptNo plan
              (execFindingsSpec env attemptNo plan.steps []))).feedback
            (some (execFindingsSpec env attemptNo plan.steps [])) s'
      ∧ s'.history = s.history
          ++ [⟨attemptNo, fb, plan, execFindingsSpec env attemptNo plan.steps [],
              normalizeVerification (env.verifierRaw attemptNo plan
                (execFindingsSpec env attemptNo plan.steps []))⟩]
      ∧ s'.job.topic = s.job.topic
      ∧ s'.job.final_report = s.job.final_report := by
  simp only [runLoop, hplan]
  simp only [execPhase_findings_eq]
  rw [if_neg (by rw [normalize_status]; exact hnp)]
  refine ⟨_, rfl, ?_, ?_, ?_⟩ <;> simp

/-- Under a total planner and a never-passing verifier, any loop entered
with at least one attempt of fuel completes through the fallback path, with
the final report synthesized from the last recorded attempt's findings. -/
theorem runLoop_allfail (env : RunEnv) (cfg : Config)
    (hp : ∀ a fb, ∃ p, env.planner a fb = .ok p)
    (hv : ∀ a p f, (env.verifierRaw a p f).status ≠ some "pass") :
    ∀ (r attemptNo : Nat) (fb : Option String) (lastF : Option Findings) (s : RunSt),
      1 ≤ r →
      ∃ recs : List AttemptRec, recs ≠ [] ∧ recs.length = r
        ∧ (runLoop env cfg r attemptNo fb lastF s).history = s.history ++ recs
        ∧ (runLoop env cfg r attemptNo fb lastF s).job.status = "completed"
        ∧ ∃ rec, recs.getLast? = some rec
          ∧ (runLoop env cfg r attemptNo fb lastF s).job.final_report
              = some (env.reporter s.job.topic rec.findings)
          ∧ rec.findings = execFindingsSpec env rec.attempt rec.plan.steps []
          ∧ ∃ fb', env.planner rec.attempt fb' = .ok rec.plan := by
  intro r
  induction r with
  | zero => intro _ _ _ _ h; omega
  | succ r' ih =>
      intro attemptNo fb lastF s _
      obtain ⟨plan, hplan⟩ := hp attemptNo fb
      obtain ⟨s', heq, hhist, htopic, -⟩ :=
        runLoop_succ_nopass env cfg r' attemptNo fb lastF s plan hplan (hv _ _ _)
      rw [heq]
      cases r' with
      | zero =>
          obtain ⟨c1, c2, c3, -⟩ := runLoop_zero_some env cfg (attemptNo + 1)
            (normalizeVerification (env.verifierRaw attemptNo plan
              (execFindingsSpec env attemptNo plan.steps []))).feedback
            (execFindingsSpec env attemptNo plan.steps []) s'
          refine ⟨[⟨attemptNo, fb, plan, execFindingsSpec env attemptNo plan.steps [],
              normalizeVerification (env.verifierRaw attemptNo plan
                (execFindingsSpec env attemptNo plan.steps []))⟩],
            by simp, by simp, ?_, c1,
            ⟨⟨attemptNo, fb, plan, execFindingsSpec env attemptNo plan.steps [],
              normalizeVerification (env.verifierRaw attemptNo plan
                (execFindingsSpec env attemptNo plan.steps []))⟩,
              by simp, ?_, rfl, ⟨fb, hplan⟩⟩⟩
          · rw [c3, hhist]
          · rw [c2, htopic]
      | succ r'' =>
          obtain ⟨recs, hne, hlen, hh, hst, rec, hlast, hrep, hfind, hplan'⟩ :=
            ih (attemptNo + 1) _ _ s' (by omega)
          refine ⟨⟨attemptNo, fb, plan, execFindingsSpec env attemptNo plan.steps [],
              normalizeVerification (env.verifierRaw attemptNo plan
                (execFindingsSpec env attemptNo plan.steps []))⟩ :: recs,
            by simp, by simp [hlen], ?_, hst, ?_⟩
          · rw [hh, hhist]
            simp
          · refine ⟨rec, ?_, ?_, hfind, hplan'⟩
            · cases recs with
              | nil => exact absurd rfl hne
              | cons b l' => rw [List.getLast?_cons_cons]; exact hlast
            · rw [hrep, htopic]

/-! ## Report-invariant preservation through the run loop -/

theorem QInv_logAwait (env : RunEnv) (s : RunSt) (m l : String) (h : QInv s) :
    QInv (logAwait env s m l) :=
  ⟨by simp [h.1], StInv_logAwait env s m l h.2⟩

theorem QInv_snap (s : RunSt) (h : QInv s) : QInv (snap s) :=
  ⟨by simp [h.1], StInv_snap s h.2⟩

theorem QInv_setStatus (s : RunSt) (st : String) (h : QInv s) :
    QInv (setStatus s st) :=
  ⟨by simp [h.1], StInv_setStatus s st h.1 h.2⟩

theorem QInv_setPlan (s : RunSt) (p : Option Plan) (h : QInv s) :
    QInv { s with job := { s.job with plan := p } } :=
  ⟨by simpa using h.1, StInv_setPlan s p h.2⟩

theorem QInv_setHistory (s : RunSt) (hist : List AttemptRec) (h : QInv s) :
    QInv { s with history := hist } :=
  ⟨by simpa using h.1, StInv_setHistory s hist h.2⟩

theorem QInv_ite_logAwait (c : Prop) [Decidable c] (env : RunEnv) (s : RunSt)
    (m l : String) (h : QInv s) :
    QInv (if c then logAwait env s m l else s) := by
  split
  · exact QInv_logAwait env s m l h
  · exact h

theorem QInv_execPhase (env : RunEnv) (cfg : Config) (a : Nat) (r : String)
    (todo done : List Step) (f : Findings) (s : RunSt) (h : QInv s) :
    QInv (execPhase env cfg a r done todo f s).1 :=
  ⟨by simp [h.1], execPhase_stinv env cfg a r todo done f s h.2⟩

/-- Every state the run loop makes observable — and its final job state —
keeps `final_report` null unless the status is `"completed"`. -/
theorem runLoop_stinv (env : RunEnv) (cfg : Config) :
    ∀ (r attemptNo : Nat) (fb : Option String) (lastF : Option Findings) (s : RunSt),
      QInv s → StInv (runLoop env cfg r attemptNo fb lastF s) := by
  intro r
  induction r with
  | zero =>
      intro attemptNo fb lastF s hq
      cases lastF with
      | none =>
          simp only [runLoop]
          refine StInv_logAwait _ _ _ _ ?_
          refine (?_ : QInv _).2
          apply QInv_setStatus
          exact hq
      | some lf =>
          simp only [runLoop]
          refine StInv_logAwait _ _ _ _ ?_
          refine StInv_setReport_completed _ _ (by simp) ?_
          refine (?_ : QInv _).2
          apply QInv_snap
          apply QInv_setStatus
          apply QInv_logAwait
          exact hq
  | succ r' ih =>
      intro attemptNo fb lastF s hq
      cases hpl : env.planner attemptNo fb with
      | error msg =>
          simp only [runLoop, hpl]
          refine StInv_logAwait _ _ _ _ ?_
          refine (?_ : QInv _).2
          apply QInv_setStatus
          apply QInv_snap
          apply QInv_logAwait
          apply QInv_setStatus
          apply QInv_logAwait
          exact hq
      | ok plan =>
          simp only [runLoop, hpl]
          split
          · refine StInv_logAwait _ _ _ _ ?_
            apply StInv_completeWith
            refine (?_ : QInv _).2.2
            apply QInv_setHistory
            apply QInv_ite_logAwait
            apply QInv_logAwait
            apply QInv_snap
            apply QInv_logAwait
            apply QInv_snap
            apply QInv_logAwait
            apply QInv_snap
            apply QInv_logAwait
            apply QInv_logAwait
            apply QInv_logAwait
            apply QInv_setStatus
            apply QInv_execPhase
            apply QInv_setStatus
            apply QInv_logAwait
            apply QInv_setPlan
            apply QInv_snap
            apply QInv_logAwait
            apply QInv_setStatus
            apply QInv_logAwait
            exact hq
          · apply ih
            apply QInv_logAwait
            apply QInv_setHistory
            apply QInv_ite_logAwait
            apply QInv_logAwait
            apply QInv_snap
            apply QInv_logAwait
            apply QInv_snap
            apply QInv_logAwait
            apply QInv_snap
            apply QInv_logAwait
            apply QInv_logAwait
            apply QInv_logAwait
            apply QInv_setStatus
            apply QInv_execPhase
            apply QInv_setStatus
            apply QInv_logAwait
            apply QInv_setPlan
            apply QInv_snap
            apply QInv_logAwait
            apply QInv_setStatus
            apply QInv_logAwait
            exact hq

/-! ## Retry-loop lemmas -/

theorem retryLoop_ok {α : Type} (is429 : JsError → Bool) (base : Nat)
    (mkE : String → α) (ft : α) (oracle : Nat → Except JsError α)
    (retries fuel i : Nat) (waits : List Nat) (v : α) (h : oracle i = .ok v) :
    retryLoop is429 base mkE ft oracle retries (fuel + 1) i waits
      = ⟨v, waits, i + 1, false⟩ := by
  simp only [retryLoop, h]

theorem retryLoop_retry {α : Type} (is429 : JsError → Bool) (base : Nat)
    (mkE : String → α) (ft : α) (oracle : Nat → Except JsError α)
    (retries fuel i : Nat) (waits : List Nat) (e : JsError)
    (h : oracle i = .error e) (h429 : is429 e = true) (hlt : i < retries - 1) :
    retryLoop is429 base mkE ft oracle retries (fuel + 1) i waits
      = retryLoop is429 base mkE ft oracle retries fuel (i + 1)
          (waits ++ [2 ^ (i + 1) * base]) := by
  simp only [retryLoop, h]
  rw [if_pos ⟨h429, hlt⟩]

theorem retryLoop_stop {α : Type} (is429 : JsError → Bool) (base : Nat)
    (mkE : String → α) (ft : α) (oracle : Nat → Except JsError α)
    (retries fuel i : Nat) (waits : List Nat) (e : JsError)
    (h : oracle i = .error e) (hstop : ¬(is429 e = true ∧ i < retries - 1)) :
    retryLoop is429 base mkE ft oracle retries (fuel + 1) i waits
      = ⟨mkE e.message, waits, i + 1, false⟩ := by
  simp only [retryLoop, h]
  rw [if_neg hstop]

/-- Three rate-limited iterations at retry ceiling 3: backoff waits
`2 * base` then `4 * base`, then the last error is returned as the typed
error value. -/
theorem retryLoop_429_exhaust {α : Type} (is429 : JsError → Bool) (base : Nat)
    (mkE : String → α) (ft : α) (oracle : Nat → Except JsError α)
    (e0 e1 e2 : JsError)
    (h0 : oracle 0 = .error e0) (g0 : is429 e0 = true)
    (h1 : oracle 1 = .error e1) (g1 : is429 e1 = true)
    (h2 : oracle 2 = .error e2) (_g2 : is429 e2 = true) :
    retryLoop is429 base mkE ft oracle 3 3 0 []
      = ⟨mkE e2.message, [2 * base, 4 * base], 3, false⟩ := by
  have s1 : retryLoop is429 base mkE ft oracle 3 3 0 []
      = retryLoop is429 base mkE ft oracle 3 2 1 [2 * base] := by
    have h := retryLoop_retry is429 base mkE ft oracle 3 2 0 [] e0 h0 g0 (by norm_num)
    simpa using h
  have s2 : retryLoop is429 base mkE ft oracle 3 2 1 [2 * base]
      = retryLoop is429 base mkE ft oracle 3 1 2 [2 * base, 4 * base] := by
    have h := retryLoop_retry is429 base mkE ft oracle 3 1 1 [2 * base] e1 h1 g1
      (by norm_num)
    simpa using h
  have s3 : retryLoop is429 base mkE ft oracle 3 1 2 [2 * base, 4 * base]
      = ⟨mkE e2.message, [2 * base, 4 * base], 3, false⟩ := by
    have h := retryLoop_stop is429 base mkE ft oracle 3 0 2 [2 * base, 4 * base] e2 h2
      (by rintro ⟨-, hlt⟩; omega)
    simpa using h
  rw [s1, s2, s3]

/-- Entered with the invariant fuel `fuel = retries - i` and at least one
iteration left, the loop always returns from inside an iteration. -/
theorem retryLoop_no_fallthrough {α : Type} (is429 : JsError → Bool) (base : Nat)
    (mkE : String → α) (ft : α) (oracle : Nat → Except JsError α)
    (retries fuel i : Nat) (waits : List Nat)
    (hsum : fuel + i = retries) (h1 : 1 ≤ fuel) :
    (retryLoop is429 base mkE ft oracle retries fuel i waits).fellThrough = false := by
  induction fuel generalizing i waits with
  | zero => omega
  | succ f ih =>
      cases ho : oracle i with
      | ok v => rw [retryLoop_ok is429 base mkE ft oracle retries f i waits v ho]
      | error e =>
          by_cases hc : is429 e = true ∧ i < retries - 1
          · rw [retryLoop_retry is429 base mkE ft oracle retries f i waits e ho hc.1 hc.2]
            exact ih (i + 1) _ (by omega) (by omega)
          · rw [retryLoop_stop is429 base mkE ft oracle retries f i waits e ho hc]

/-- If every iteration of the loop throws, the returned value is the
converted error value of some thrown message. -/
theorem retryLoop_error_result {α : Type} (is429 : JsError → Bool) (base : Nat)
    (mkE : String → α) (ft : α) (oracle : Nat → Except JsError α)
    (retries fuel i : Nat) (waits : List Nat)
    (hsum : fuel + i = retries) (h1 : 1 ≤ fuel)
    (herr : ∀ j, j < retries → ∀ v, oracle j ≠ .ok v) :
    ∃ m, (retryLoop is429 base mkE ft oracle retries fuel i waits).result = mkE m := by
  induction fuel generalizing i waits with
  | zero => omega
  | succ f ih =>
      cases ho : oracle i with
      | ok v => exact absurd ho (herr i (by omega) v)
      | error e =>
          by_cases hc : is429 e = true ∧ i < retries - 1
          · rw [retryLoop_retry is429 base mkE ft oracle retries f i waits e ho hc.1 hc.2]
            exact ih (i + 1) _ (by omega) (by omega)
          · rw [retryLoop_stop is429 base mkE ft oracle retries f i waits e ho hc]
            exact ⟨e.message, rfl⟩

/-! ## C5 — backend structured-generation retry policy -/

/-- C5: each backend's structured generation retries a rate-limit-class
error with exponential backoff (base delay × 2^attempt: 4000 then 8000 ms
for Groq's 2000 base, 6000 then 12000 ms for Gemini's 3000 base) up to the
fixed ceiling of 3 attempts, and on exhaustion returns the typed `{error}`
object rather than throwing; a non-rate-limit error returns the typed error
object immediately after a single iteration, with no backoff wait. -/
theorem backend_rate_limit_retry_policy
    (og ge : Nat → Except JsError JsonObj) (e f : JsError) :
    ((∀ i, i < 3 → ∃ ei, og i = .error ei ∧ groqIs429 ei = true) →
      ∃ e2, og 2 = .error e2 ∧
        groqGenerateJson og 3
          = ⟨JsonObj.mkErr e2.message, [4000, 8000], 3, false⟩)
    ∧ (og 0 = .error e → groqIs429 e = false →
      groqGenerateJson og 3 = ⟨JsonObj.mkErr e.message, [], 1, false⟩)
    ∧ ((∀ i, i < 3 → ∃ ei, ge i = .error ei ∧ geminiIs429 ei = true) →
      ∃ e2, ge 2 = .error e2 ∧
        geminiGenerateJson true ge 3
          = ⟨JsonObj.mkErr e2.message, [6000, 12000], 3, false⟩)
    ∧ (ge 0 = .error f → geminiIs429 f = false →
      geminiGenerateJson true ge 3 = ⟨JsonObj.mkErr f.message, [], 1, false⟩) := by
  refine ⟨?_, ?_, ?_, ?_⟩
  · intro h
    obtain ⟨e0, h0, g0⟩ := h 0 (by norm_num)
    obtain ⟨e1, h1, g1⟩ := h 1 (by norm_num)
    obtain ⟨e2, h2, g2⟩ := h 2 (by norm_num)
    refine ⟨e2, h2, ?_⟩
    have hr := retryLoop_429_exhaust groqIs429 2000 JsonObj.mkErr
      (JsonObj.mkErr "Max retries exceeded") og e0 e1 e2 h0 g0 h1 g1 h2 g2
    unfold groqGenerateJson
    norm_num at hr
    exact hr
  · intro h0 hg
    have hr := retryLoop_stop groqIs429 2000 JsonObj.mkErr
      (JsonObj.mkErr "Max retries exceeded") og 3 2 0 [] e h0 (by simp [hg])
    unfold groqGenerateJson
    simpa using hr
  · intro h
    obtain ⟨e0, h0, g0⟩ := h 0 (by norm_num)
    obtain ⟨e1, h1, g1⟩ := h 1 (by norm_num)
    obtain ⟨e2, h2, g2⟩ := h 2 (by norm_num)
    refine ⟨e2, h2, ?_⟩
    have hr := retryLoop_429_exhaust geminiIs429 3000 JsonObj.mkErr
      (JsonObj.mkErr "Max retries exceeded") ge e0 e1 e2 h0 g0 h1 g1 h2 g2
    unfold geminiGenerateJson geminiGenerateJsonAvail
    norm_num at hr ⊢
    exact hr
  · intro h0 hg
    have hr := retryLoop_stop geminiIs429 3000 JsonObj.mkErr
      (JsonObj.mkErr "Max retries exceeded") ge 3 2 0 [] f h0 (by simp [hg])
    unfold geminiGenerateJson geminiGenerateJsonAvail
    simpa using hr

/-- Instantiation of `backend_rate_limit_retry_policy`: an always-rate-limited
Groq call performs waits 4000 and 8000 ms and returns the typed error; a
permanently failing Gemini call returns the typed error after one iteration
with no wait. -/
theorem backend_rate_limit_retry_policy_witness :
    groqGenerateJson rlOracle 3
      = ⟨JsonObj.mkErr "rate limited", [4000, 8000], 3, false⟩
    ∧ geminiGenerateJson true permOracle 3
      = ⟨JsonObj.mkErr "boom", [], 1, false⟩ := by
  constructor
  · obtain ⟨e2, h2, heq⟩ :=
      (backend_rate_limit_retry_policy rlOracle permOracle
          ⟨some 500, "boom"⟩ ⟨some 500, "boom"⟩).1
        (fun i _ => ⟨⟨some 429, "rate limited"⟩, rfl, by decide⟩)
    have he : e2 = ⟨some 429, "rate limited"⟩ := by
      simp only [rlOracle, Except.error.injEq] at h2
      exact h2.symm
    rw [he] at heq
    exact heq
  · exact (backend_rate_limit_retry_policy rlOracle permOracle
        ⟨some 500, "boom"⟩ ⟨some 500, "boom"⟩).2.2.2 rfl (by decide)

/-! ## C10 — Groq generate calls are total; the post-loop returns are dead -/

/-- C10: `GroqLLM.generateJson` and `GroqLLM.generateText` are total at
their interface for the default retry count of 3: for every oracle the loop
returns from inside an iteration (the trailing `"Max retries exceeded"`
returns are unreachable, because the final iteration's catch always
returns), and when every iteration throws — a 429 on the final iteration
and JSON parse failures included — the returned value is the caught error
converted to a value: an `{error: message}` object, resp. an
`"Error: ..."` string. -/
theorem groq_generate_total (oj : Nat → Except JsError JsonObj)
    (ot : Nat → Except JsError String) :
    (groqGenerateJson oj 3).fellThrough = false
    ∧ (groqGenerateText ot 3).fellThrough = false
    ∧ ((∀ j, j < 3 → ∀ v, oj j ≠ .ok v) →
        ∃ m, (groqGenerateJson oj 3).result = JsonObj.mkErr m)
    ∧ ((∀ j, j < 3 → ∀ v, ot j ≠ .ok v) →
        ∃ m, (groqGenerateText ot 3).result = "Error: " ++ m) := by
  refine ⟨?_, ?_, ?_, ?_⟩
  · exact retryLoop_no_fallthrough groqIs429 2000 JsonObj.mkErr
      (JsonObj.mkErr "Max retries exceeded") oj 3 3 0 [] (by norm_num) (by norm_num)
  · exact retryLoop_no_fallthrough groqIs429 2000 (fun m => "Error: " ++ m)
      "Error: Max retries exceeded" ot 3 3 0 [] (by norm_num) (by norm_num)
  · intro herr
    exact retryLoop_error_result groqIs429 2000 JsonObj.mkErr
      (JsonObj.mkErr "Max retries exceeded") oj 3 3 0 [] (by norm_num) (by norm_num) herr
  · intro herr
    exact retryLoop_error_result groqIs429 2000 (fun m => "Error: " ++ m)
      "Error: Max retries exceeded" ot 3 3 0 [] (by norm_num) (by norm_num) herr

/-- Instantiation of `groq_generate_total`: a permanently failing JSON call
and a parse-failing text call both return converted error values without
reaching the post-loop returns. -/
theorem groq_generate_total_witness :
    (groqGenerateJson permOracle 3).fellThrough = false
    ∧ (∃ m, (groqGenerateText parseFailOracle 3).result = "Error: " ++ m) :=
  ⟨(groq_generate_total permOracle parseFailOracle).1,
    (groq_generate_total permOracle parseFailOracle).2.2.2
      (fun j _ v h => by simp [parseFailOracle] at h)⟩

/-! ## C9 — Verifier feedback normalization -/

/-- C9: for every Verifier result whose status is not `"pass"` and whose
feedback field is absent or empty, the VerifierAgent sets the feedback field
to the fixed generic string before returning; a result with status `"pass"`
or with feedback already present is returned unchanged; hence the returned
result always carries non-empty feedback whenever its status is not
`"pass"`. -/
theorem verifier_feedback_normalization (v : Verification) :
    (v.status ≠ some "pass" → feedbackFalsy v.feedback = true →
      (normalizeVerification v).feedback = some genericFeedback)
    ∧ (v.status = some "pass" → normalizeVerification v = v)
    ∧ (feedbackFalsy v.feedback = false → normalizeVerification v = v)
    ∧ ((normalizeVerification v).status ≠ some "pass" →
      feedbackFalsy (normalizeVerification v).feedback = false) := by
  refine ⟨?_, ?_, ?_, ?_⟩
  · intro h1 h2
    simp [normalizeVerification, h1, h2]
  · intro h
    simp [normalizeVerification, h]
  · intro h
    simp [normalizeVerification, h]
  · intro h
    rw [normalize_status] at h
    by_cases h2 : feedbackFalsy v.feedback = true
    · unfold normalizeVerification
      rw [if_pos ⟨h, h2⟩]
      simp [feedbackFalsy, genericFeedback]
    · simp only [Bool.not_eq_true] at h2
      simp [normalizeVerification, h2, h]

/-- Instantiation of `verifier_feedback_normalization`: a failing result with
no feedback gains the generic feedback; a passing result is unchanged. -/
theorem verifier_feedback_normalization_witness :
    (normalizeVerification ⟨some "fail", some 40, none, none⟩).feedback
        = some genericFeedback
    ∧ normalizeVerification ⟨some "pass", some 90, none, some "report"⟩
        = ⟨some "pass", some 90, none, some "report"⟩ :=
  ⟨(verifier_feedback_normalization ⟨some "fail", some 40, none, none⟩).1
      (by decide) (by decide),
    (verifier_feedback_normalization ⟨some "pass", some 90, none, some "report"⟩).2.1
      rfl⟩

/-! ## C7 — SSE attach: full log replay, then the result event -/

/-- C7: attaching to an existing job's event stream first writes one log
event per existing log entry in log order; when the job's status is
`"completed"` with `final_report` set (JS-truthy, i.e. a non-empty report
string), the result event is written immediately after the replay and before
the subscriber is registered for live events. -/
theorem sse_attach_replay_then_result (c : ControllerState) (jobId : String)
    (job : JobState) (r : String) (hget : c.getJob jobId = some job) :
    sseRoute c jobId = .stream (sseAttach job)
    ∧ (sseAttach job).take job.logs.length
        = job.logs.map (fun l => SseAction.write (.log l))
    ∧ (job.status = "completed" → job.final_report = some r → r ≠ "" →
        sseAttach job
          = job.logs.map (fun l => SseAction.write (.log l))
            ++ [SseAction.write (.result r), SseAction.subscribe]) := by
  refine ⟨by simp [sseRoute, hget], ?_, ?_⟩
  · simp only [sseAttach]
    rw [List.append_assoc]
    exact List.take_left' (by simp)
  · intro h1 h2 h3
    simp [sseAttach, h1, h2, h3]

/-- Instantiation of `sse_attach_replay_then_result` on the sample completed
job: the attach stream is exactly the one-entry log replay, the result
event, then the live subscription. -/
theorem sse_attach_replay_then_result_witness :
    sseRoute sampleController "j1" = .stream (sseAttach sampleCompletedJob)
    ∧ sseAttach sampleCompletedJob
        = [SseAction.write (.log sampleLog),
           SseAction.write (.result "the report"), SseAction.subscribe] := by
  have h := sse_attach_replay_then_result sampleController "j1"
    sampleCompletedJob "the report" (by decide)
  exact ⟨h.1, by rw [h.2.2 (by decide) (by decide) (by decide)]; decide⟩

/-! ## C8 — job creation and lookup contract -/

/-- C8: `POST /api/v1/jobs` rejects a missing or empty topic with HTTP 400
without creating a job; for a non-empty topic it returns the fresh job id
and the job is immediately queryable under that id (the run loop proceeds in
the background over the stored state); `GET` on an id that was never created
yields HTTP 404. -/
theorem job_creation_contract (c : ControllerState) (freshId ts t badId : String)
    (ht : t ≠ "") (hbad : c.getJob badId = none) :
    postJobs c freshId ts none = (.badRequest "Topic is required", c)
    ∧ postJobs c freshId ts (some "") = (.badRequest "Topic is required", c)
    ∧ (postJobs c freshId ts (some t)).1 = .created freshId "queued"
    ∧ (postJobs c freshId ts (some t)).2.getJob freshId
        = some (JobState.init freshId t ts)
    ∧ getJobRoute c badId = .notFound "Job not found" := by
  refine ⟨rfl, by simp [postJobs], by simp [postJobs, ht, createJob], ?_,
    by simp [getJobRoute, hbad]⟩
  simp only [postJobs, ht, createJob, ControllerState.getJob]
  simp [lookup_jsAssign_self]

/-- Instantiation of `job_creation_contract` on an empty registry: creating a
job for topic `"ev"` under fresh id `"id1"` makes it queryable, while the
unknown id `"zzz"` is a 404. -/
theorem job_creation_contract_witness :
    (postJobs ⟨[], []⟩ "id1" "t0" (some "ev")).2.getJob "id1"
        = some (JobState.init "id1" "ev" "t0")
    ∧ getJobRoute (⟨[], []⟩ : ControllerState) "zzz" = .notFound "Job not found" :=
  have h := job_creation_contract ⟨[], []⟩ "id1" "t0" "ev" "zzz"
    (by decide) (by decide)
  ⟨h.2.2.2.1, h.2.2.2.2⟩

/-! ## C6 — verify/synthesize routing and single-hop fallback -/

/-- C6: when Gemini is unconfigured, `LLM.verify` and `LLM.synthesize` are
exactly the fast backend's structured/text generation on the same prompt;
when Gemini is configured and returns an error result, the call falls back
exactly one hop to Groq, and if Groq's result is also an error, that error
result is what the caller receives. -/
theorem router_single_hop_fallback (m : Router) (p : String) :
    (m.geminiAvailable = false →
      m.verify p = m.groqJson p ∧ m.synthesize p = m.groqText p)
    ∧ (m.geminiAvailable = true → (m.geminiJson p).errTruthy = true →
      m.verify p = m.groqJson p)
    ∧ (m.geminiAvailable = true → (m.geminiJson p).errTruthy = true →
      (m.groqJson p).errTruthy = true → (m.verify p).errTruthy = true)
    ∧ (m.geminiAvailable = true → strStartsWith (m.geminiText p) "Error:" = true →
      m.synthesize p = m.groqText p)
    ∧ (m.geminiAvailable = true → strStartsWith (m.geminiText p) "Error:" = true →
      strStartsWith (m.groqText p) "Error:" = true →
      strStartsWith (m.synthesize p) "Error:" = true) := by
  refine ⟨?_, ?_, ?_, ?_, ?_⟩
  · intro h
    exact ⟨by simp [Router.verify, h], by simp [Router.synthesize, h]⟩
  · intro h he
    simp [Router.verify, h, he]
  · intro h he hg
    simp [Router.verify, h, he, hg]
  · intro h he
    simp [Router.synthesize, h, he]
  · intro h he hg
    simp [Router.synthesize, h, he, hg]

/-! ## C1 — all attempts fail to verify: fallback report, never `failed` -/

/-- C1: when the planner succeeds on every attempt, the verifier's status is
never `"pass"` up to the retry ceiling (`maxRetries`, default 2), and every
plan has at least one step (so the last attempt's findings mapping is
non-empty), the run loop ends with the job `"completed"` — never `"failed"`
— with `final_report` set to the ReportGenerator's output synthesized from
the last recorded attempt's findings. -/
theorem runjob_all_attempts_nonpass_completes (env : RunEnv) (cfg : Config)
    (job : JobState) (h1 : 1 ≤ cfg.maxRetries)
    (hp : ∀ a fb, ∃ p, env.planner a fb = .ok p)
    (hv : ∀ a p f, (env.verifierRaw a p f).status ≠ some "pass")
    (hne : ∀ a fb p, env.planner a fb = .ok p → p.steps ≠ []) :
    (runJob env cfg job).job.status = "completed"
    ∧ (runJob env cfg job).job.status ≠ "failed"
    ∧ (runJob env cfg job).history.length = cfg.maxRetries
    ∧ ∃ rec, (runJob env cfg job).history.getLast? = some rec
        ∧ rec.findings ≠ []
        ∧ (runJob env cfg job).job.final_report
            = some (env.reporter job.topic rec.findings) := by
  obtain ⟨recs, hrne, hlen, hh, hst, rec, hlast, hrep, hfind, fb', hplan⟩ :=
    runLoop_allfail env cfg hp hv cfg.maxRetries 1 none none ⟨job, 0, [], []⟩ h1
  have hrunhist : (runJob env cfg job).history = recs := by
    unfold runJob
    rw [hh]
    simp
  refine ⟨hst, ?_, ?_, rec, ?_, ?_, hrep⟩
  · rw [show (runJob env cfg job).job.status = "completed" from hst]
    decide
  · rw [hrunhist]
    exact hlen
  · rw [hrunhist]
    exact hlast
  · rw [hfind]
    have hsteps := hne _ _ _ hplan
    cases hps : rec.plan.steps with
    | nil => exact absurd hps hsteps
    | cons st rest => exact execFindingsSpec_cons_ne_nil env rec.attempt st rest []

/-- Instantiation of `runjob_all_attempts_nonpass_completes`: a one-step
planner with an always-failing verifier still completes with a fallback
report. -/
theorem runjob_all_attempts_nonpass_completes_witness :
    (runJob envAllFail defaultConfig (JobState.init "j1" "ev recycling" "t0")).job.status
      = "completed" :=
  (runjob_all_attempts_nonpass_completes envAllFail defaultConfig
    (JobState.init "j1" "ev recycling" "t0") (by decide)
    (fun _ _ => ⟨⟨"gather then analyze", [sampleStep]⟩, rfl⟩)
    (fun _ _ _ => by simp [envAllFail])
    (fun _ _ p h => by injection h with h2; rw [← h2]; decide)).1

/-! ## C2 — empty Findings at retry exhaustion: `completed`, not `failed` -/

/-- C2 counterexample: with zero-step plans on both attempts (so the
findings mapping holds no entries) and a verifier that never passes, the
default-configured run loop still terminates `"completed"` — the claim says
such a job ends `"failed"`.  The ghost history shows both attempts failed
verification with empty findings. -/
theorem runjob_empty_findings_counterexample :
    (runJob envEmptyPlans defaultConfig (JobState.init "j1" "ev" "t0")).job.status
      = "completed"
    ∧ (runJob envEmptyPlans defaultConfig (JobState.init "j1" "ev" "t0")).job.status
      ≠ "failed"
    ∧ ((runJob envEmptyPlans defaultConfig (JobState.init "j1" "ev" "t0")).history.map
        (fun rec => (rec.verification.status, rec.findings)))
      = [(some "fail", []), (some "fail", [])] := by
  refine ⟨by decide, by decide, by decide⟩

/-- C2 (amended): exhausting the retry ceiling without a pass ends the job
`"completed"` even when the findings mapping is empty — the fallback guard
`if (lastFindings)` tests nullity, and the empty findings object is truthy —
with `final_report` synthesized from the empty findings; the `"failed"`
terminal requires `lastFindings` to still be null, which no completed
attempt leaves behind. -/
theorem runjob_empty_findings_still_completes (env : RunEnv) (cfg : Config)
    (job : JobState) (h1 : 1 ≤ cfg.maxRetries)
    (hp : ∀ a fb, ∃ p, env.planner a fb = .ok p)
    (hempty : ∀ a fb p, env.planner a fb = .ok p → p.steps = [])
    (hv : ∀ a p f, (env.verifierRaw a p f).status ≠ some "pass") :
    (runJob env cfg job).job.status = "completed"
    ∧ (runJob env cfg job).job.status ≠ "failed"
    ∧ (runJob env cfg job).job.final_report = some (env.reporter job.topic []) := by
  obtain ⟨recs, hrne, hlen, hh, hst, rec, hlast, hrep, hfind, fb', hplan⟩ :=
    runLoop_allfail env cfg hp hv cfg.maxRetries 1 none none ⟨job, 0, [], []⟩ h1
  refine ⟨hst, ?_, ?_⟩
  · rw [show (runJob env cfg job).job.status = "completed" from hst]
    decide
  · have hsteps := hempty _ _ _ hplan
    have hf : rec.findings = [] := by
      rw [hfind, hsteps]
      rfl
    rw [← hf]
    exact hrep

/-- Instantiation of `runjob_empty_findings_still_completes` on the
zero-step environment. -/
theorem runjob_empty_findings_still_completes_witness :
    (runJob envEmptyPlans defaultConfig (JobState.init "j1" "ev" "t0")).job.final_report
      = some (envEmptyPlans.reporter "ev" []) :=
  (runjob_empty_findings_still_completes envEmptyPlans defaultConfig
    (JobState.init "j1" "ev" "t0") (by decide)
    (fun _ _ => ⟨⟨"nothing to do", []⟩, rfl⟩)
    (fun _ _ p h => by injection h with h2; rw [← h2])
    (fun _ _ _ => by simp [envEmptyPlans])).2.2

/-! ## C3 — `final_report` null unless `completed` -/

/-- C3 counterexample: the fallback path assigns `job.status = "completed"`
*before* suspending on the ReportGenerator call, so the run reaches an
observable state whose status is `"completed"` while `final_report` is still
null — the claimed "non-null iff completed" invariant fails in that
direction. -/
theorem job_report_iff_completed_counterexample :
    ((runJob envEmptyPlans defaultConfig (JobState.init "j1" "ev" "t0")).trace.any
      (fun x => (x.status == "completed") && (x.final_report == none))) = true := by
  decide

/-- C3 (amended): a job created by `createJob` starts with status `"queued"`
and `final_report` null, and at every observable state of its run — and at
its final state — a non-null `final_report` implies status `"completed"` (no
path sets the report without completing).  The converse direction of the
claimed invariant fails: see the counterexample, where the fallback path is
`"completed"` with a null report while the fallback report is being
generated. -/
theorem job_report_only_when_completed (env : RunEnv) (cfg : Config)
    (jid topic ts : String) (x : JobState)
    (hx : x ∈ (runJob env cfg (JobState.init jid topic ts)).trace
        ∨ x = (runJob env cfg (JobState.init jid topic ts)).job) :
    (JobState.init jid topic ts).status = "queued"
    ∧ (JobState.init jid topic ts).final_report = none
    ∧ (x.final_report ≠ none → x.status = "completed") := by
  refine ⟨rfl, rfl, ?_⟩
  have h := runLoop_stinv env cfg cfg.maxRetries 1 none none
    ⟨JobState.init jid topic ts, 0, [], []⟩ ⟨rfl, Or.inl rfl, by simp⟩
  obtain ⟨hjob, htr⟩ := h
  intro hrep
  rcases hx with hx | rfl
  · rcases htr x hx with h0 | h0
    · exact absurd h0 hrep
    · exact h0
  · rcases hjob with h0 | h0
    · exact absurd h0 hrep
    · exact h0

/-- Instantiation of `job_report_only_when_completed` at the final state of
a concrete run. -/
theorem job_report_only_when_completed_witness :
    ((runJob envAllFail defaultConfig (JobState.init "j1" "ev" "t0")).job.final_report
        ≠ none →
      (runJob envAllFail defaultConfig (JobState.init "j1" "ev" "t0")).job.status
        = "completed")
    ∧ (JobState.init "j1" "ev" "t0").status = "queued" :=
  have h := job_report_only_when_completed envAllFail defaultConfig "j1" "ev" "t0"
    (runJob envAllFail defaultConfig (JobState.init "j1" "ev" "t0")).job (Or.inr rfl)
  ⟨h.2.2, h.1⟩

/-! ## C4 — strictly sequential step execution -/

/-- C4: the executing phase runs the plan's steps strictly sequentially in
plan order: its effect stream equals the sequential specification stream, in
which step `i`'s tool is dispatched with exactly the findings accumulated
from steps `0..i-1` (so step `i+1` is dispatched only after step `i`'s
result is stored), each result is stored verbatim — error-describing string
or not — under the step's `step_id`, and the fixed pause
`cfg.delayBetweenSteps` (default 1000 ms) follows every step; with distinct
step ids, the finished findings hold each step's executor output under its
id. -/
theorem exec_phase_sequential (env : RunEnv) (cfg : Config) (a : Nat) (r : String)
    (done steps : List Step) (f0 : Findings) (s : RunSt) :
    (execPhase env cfg a r done steps f0 s).2.2 = execActionsSpec env cfg a steps f0
    ∧ (execPhase env cfg a r done steps f0 s).2.1 = execFindingsSpec env a steps f0
    ∧ (∀ i (h : i < steps.length),
        (execActionsSpec env cfg a steps f0).get? (3 * i)
          = some (.dispatch (steps.get ⟨i, h⟩).step_id
              (execFindingsSpec env a (steps.take i) f0))
        ∧ (execActionsSpec env cfg a steps f0).get? (3 * i + 1)
          = some (.store (steps.get ⟨i, h⟩).step_id
              (env.executor a { steps.get ⟨i, h⟩ with status := "active" }
                (execFindingsSpec env a (steps.take i) f0)))
        ∧ (execActionsSpec env cfg a steps f0).get? (3 * i + 2)
          = some (.pause cfg.delayBetweenSteps))
    ∧ ((steps.map Step.step_id).Nodup →
        ∀ i (h : i < steps.length),
          (execFindingsSpec env a steps f0).lookup (steps.get ⟨i, h⟩).step_id
            = some (env.executor a { steps.get ⟨i, h⟩ with status := "active" }
                (execFindingsSpec env a (steps.take i) f0))) :=
  ⟨execPhase_actions env cfg a r steps done f0 s,
    execPhase_findings_eq env cfg a r steps done f0 s,
    fun i h => execActionsSpec_get env cfg a steps f0 i h,
    fun hnd i h => execFindingsSpec_lookup env a steps f0 i h hnd⟩

/-- Instantiation of `exec_phase_sequential` on a concrete two-step plan:
the second step's dispatch context is the findings of the first step alone,
and the finished findings hold the second step's output under `"step_2"`. -/
theorem exec_phase_sequential_witness :
    (execPhase envAllFail defaultConfig 1 "r" [] [sampleStep, sampleStep2] []
        ⟨JobState.init "j1" "t" "0", 0, [], []⟩).2.2
      = execActionsSpec envAllFail defaultConfig 1 [sampleStep, sampleStep2] []
    ∧ (execActionsSpec envAllFail defaultConfig 1 [sampleStep, sampleStep2] []).get? 3
      = some (.dispatch "step_2" (execFindingsSpec envAllFail 1 [sampleStep] []))
    ∧ (execFindingsSpec envAllFail 1 [sampleStep, sampleStep2] []).lookup "step_2"
      = some (envAllFail.executor 1 { sampleStep2 with status := "active" }
          (execFindingsSpec envAllFail 1 [sampleStep] [])) := by
  have h := exec_phase_sequential envAllFail defaultConfig 1 "r" []
    [sampleStep, sampleStep2] [] ⟨JobState.init "j1" "t" "0", 0, [], []⟩
  refine ⟨h.1, ?_, ?_⟩
  · have h2 := (h.2.2.1 1 (by decide)).1
    simpa [sampleStep2] using h2
  · have h2 := h.2.2.2 (by decide) 1 (by decide)
    simpa [sampleStep2] using h2

/-- Instantiation of `router_single_hop_fallback`: with Gemini unconfigured,
verify is served by Groq; with Gemini erroring, verify falls back to Groq;
with both erroring, the caller receives the error result. -/
theorem router_single_hop_fallback_witness :
    sampleRouterNoGemini.verify "p" = sampleRouterNoGemini.groqJson "p"
    ∧ sampleRouterDown.verify "p" = sampleRouterDown.groqJson "p"
    ∧ (sampleRouterBothDown.verify "p").errTruthy = true
    ∧ sampleRouterDown.synthesize "p" = sampleRouterDown.groqText "p" :=
  ⟨((router_single_hop_fallback sampleRouterNoGemini "p").1 rfl).1,
    (router_single_hop_fallback sampleRouterDown "p").2.1 rfl (by decide),
    (router_single_hop_fallback sampleRouterBothDown "p").2.2.1 rfl
      (by decide) (by decide),
    (router_single_hop_fallback sampleRouterDown "p").2.2.2.1 rfl (by decide)⟩

end AutoResearch
